import Mathlib

/-!
Verification of the bounded-buffer core of the producer/consumer program
(`src/assign4/buffer.h`, `src/assign4/buffer.cpp`, `src/assign4/main.cpp`).

The C++ `Buffer` class is a fixed-capacity circular queue.  We embed it
shallowly: the mutable object becomes a Lean structure, each member function
becomes a function from (and, for mutators, to) that structure, and the
blocking branch of `insert_item` / `remove_item` (a condition-variable wait
that can never finish in a single-threaded trace) is modelled as `none`.
All C++ `int` fields are modelled as `Int`; the C++ `%` operator on `int`
is truncated division, i.e. `Int.tmod`.
-/

/-- Array read `xs[i]` for an `int` index, as used by the C++ code on its heap array.
All verified accesses are in bounds; out-of-range reads (undefined behavior
in C++) return 0. -/
def getI (xs : List Int) (i : Int) : Int :=
  if 0 ≤ i then xs.getD i.toNat 0 else 0

/-- Array write `xs[i] = v` for an `int` index.  All verified writes are in bounds;
out-of-range writes (undefined behavior in C++) leave the list unchanged. -/
def setI (xs : List Int) (i : Int) (v : Int) : List Int :=
  if 0 ≤ i then xs.set i.toNat v else xs

/-- The data members of the C++ `Buffer` class (buffer.h lines 22-26).
The mutex and the two condition variables carry no data; the array
`buffer_item* items` of length `max_size` is the list `items`. -/
structure Buffer where
  items : List Int
  max_size : Int
  current_count : Int
  front_idx : Int
  rear_idx : Int
  deriving Repr, DecidableEq

/-- The member initialisations performed by `Buffer::Buffer(int size)`
(buffer.cpp lines 24-30): `max_size = size`, `current_count = 0`,
`front_idx = 0`, `rear_idx = -1`, `items = new buffer_item[max_size]`.
The freshly allocated array holds indeterminate values; we model them as 0
(no verified execution reads a slot before writing it). -/
def mkBuffer (size : Int) : Buffer :=
  { max_size := size
    current_count := 0
    front_idx := 0
    rear_idx := -1
    items := List.replicate size.toNat 0 }

/-- Constructor `Buffer::Buffer(int size)` including the outcome of the allocation
`new buffer_item[max_size]`: for a negative extent the `new` expression
throws `std::bad_array_new_length` (modelled as `none`); otherwise the
constructor completes with the member values of `mkBuffer`.  Note the
constructor performs no validation of `size` itself. -/
def Buffer.construct (size : Int) : Option Buffer :=
  if size < 0 then none else some (mkBuffer size)

/-- Member `Buffer::is_empty` (buffer.cpp line 182): `current_count == 0`. -/
def Buffer.is_empty (b : Buffer) : Bool :=
  b.current_count == 0

/-- Member `Buffer::is_full` (buffer.cpp line 194): `current_count == max_size`. -/
def Buffer.is_full (b : Buffer) : Bool :=
  b.current_count == b.max_size

/-- Member `Buffer::get_size` (buffer.cpp line 160): returns `max_size`. -/
def Buffer.get_size (b : Buffer) : Int :=
  b.max_size

/-- Member `Buffer::get_count` (buffer.cpp line 171): returns `current_count`. -/
def Buffer.get_count (b : Buffer) : Int :=
  b.current_count

/-- Member `Buffer::insert_item` (buffer.cpp lines 109-124).  The wait loop
`while (is_full()) empty_cond.wait(lock);` blocks; in a sequential trace a
full buffer therefore never proceeds, modelled as `none`.  Otherwise:
`rear_idx = (rear_idx + 1) % max_size; items[rear_idx] = item;
current_count++; return true;`. -/
def Buffer.insert_item (b : Buffer) (item : Int) : Option (Buffer × Bool) :=
  if b.is_full then none
  else
    let rear' := (b.rear_idx + 1).tmod b.max_size
    some ({ b with
              rear_idx := rear'
              items := setI b.items rear' item
              current_count := b.current_count + 1 }, true)

/-- Member `Buffer::remove_item` (buffer.cpp lines 137-151).  The wait loop
`while (is_empty()) full_cond.wait(lock);` blocks, modelled as `none`.
Otherwise: `*item = items[front_idx];
front_idx = (front_idx + 1) % max_size; current_count--; return true;`.
The result carries the updated buffer, the value stored through the
out-parameter, and the returned `bool`. -/
def Buffer.remove_item (b : Buffer) : Option (Buffer × Int × Bool) :=
  if b.is_empty then none
  else
    some ({ b with
              front_idx := (b.front_idx + 1).tmod b.max_size
              current_count := b.current_count - 1 },
          getI b.items b.front_idx, true)

/-- The copy loop shared by the copy constructor (buffer.cpp lines 58-61)
and the assignment operator (lines 90-93):
`for (int i = 0, index = front_idx; i < current_count; i++) {
   items[i] = other.items[index]; index = (index + 1) % max_size; }`.
`fuel` is the number of remaining iterations (`current_count - i`). -/
def copyItemsAux (src : List Int) (msize : Int) :
    Nat → List Int → Nat → Int → List Int
  | 0, dst, _, _ => dst
  | fuel + 1, dst, i, index =>
      copyItemsAux src msize fuel (setI dst i (getI src index)) (i + 1)
        ((index + 1).tmod msize)

/-- Copy constructor `Buffer::Buffer(const Buffer& other)` (buffer.cpp lines 51-62): copies
`max_size`, `current_count`, `front_idx` and `rear_idx` verbatim, allocates
a fresh array, and runs the copy loop, which places the live items of
`other` at indices `0, 1, …, current_count-1` of the new array. -/
def Buffer.copy (other : Buffer) : Buffer :=
  { max_size := other.max_size
    current_count := other.current_count
    front_idx := other.front_idx
    rear_idx := other.rear_idx
    items := copyItemsAux other.items other.max_size
      other.current_count.toNat (List.replicate other.max_size.toNat 0)
      0 other.front_idx }

/-- Assignment operator `Buffer::operator=` (buffer.cpp lines 74-96).  `same` models the
pointer test `this == &other`: when it holds the operator returns `*this`
untouched; otherwise it frees the old array and performs the same copy as
the copy constructor. -/
def Buffer.opAssign (self other : Buffer) (same : Bool) : Buffer :=
  if same then self else Buffer.copy other

/-- The printing loop of `Buffer::print_buffer` (buffer.cpp lines 211-215):
`for (int i = 0, index = front_idx; i < current_count; i++) {
   cout << items[index]; if (i < current_count - 1) cout << ", ";
   index = (index + 1) % max_size; }`.
`fuel` is the number of remaining iterations. -/
def printItemsAux (items : List Int) (msize cnt : Int) :
    Nat → Nat → Int → String
  | 0, _, _ => ""
  | fuel + 1, i, index =>
      toString (getI items index)
        ++ (if (i : Int) < cnt - 1 then ", " else "")
        ++ printItemsAux items msize cnt fuel (i + 1) ((index + 1).tmod msize)

/-- Member `Buffer::print_buffer` (buffer.cpp lines 205-218), as the string sent
to `cout`: `"Buffer: ["`, then either the fixed empty marker or the items
in circular order starting at `front_idx`, then `"]\n"`. -/
def Buffer.print_buffer (b : Buffer) : String :=
  "Buffer: ["
    ++ (if b.is_empty then "-- Buffer is empty --"
        else printItemsAux b.items b.max_size b.current_count
          b.current_count.toNat 0 b.front_idx)
    ++ "]\n"

/-- The live (logical) contents of a buffer, oldest first: the items at
indices `front_idx, front_idx+1, …, front_idx+current_count-1` taken
modulo `max_size`. -/
def Buffer.liveList (b : Buffer) : List Int :=
  (List.range b.current_count.toNat).map
    (fun (i : Nat) => getI b.items ((b.front_idx + (i : Int)) % b.max_size))

/-- The representation invariant of a `Buffer`: the capacity is positive,
the array has length `max_size`, `front_idx` is a valid index,
`current_count` lies in `[0, max_size]`, `rear_idx` lies in
`[-1, max_size)` (it is `-1` only while nothing was ever inserted), and
`rear_idx` points one slot before `front_idx + current_count`
circularly. -/
structure Buffer.WF (b : Buffer) : Prop where
  msize_pos : 0 < b.max_size
  items_len : (b.items.length : Int) = b.max_size
  front_lb : 0 ≤ b.front_idx
  front_ub : b.front_idx < b.max_size
  count_lb : 0 ≤ b.current_count
  count_ub : b.current_count ≤ b.max_size
  rear_lb : -1 ≤ b.rear_idx
  rear_ub : b.rear_idx < b.max_size
  rear_eq : (b.rear_idx + 1) % b.max_size
    = (b.front_idx + b.current_count) % b.max_size
  rear_sign : b.current_count = 0 ∨ 0 ≤ b.rear_idx

/-- Setting a slot does not change the array's length. -/
theorem setI_length (xs : List Int) (i v : Int) : (setI xs i v).length = xs.length := by
  unfold setI; split <;> simp

/-- Reading back a slot just written, for an in-bounds index. -/
theorem getI_setI_eq (xs : List Int) (i v : Int) (h0 : 0 ≤ i)
    (h1 : i < (xs.length : Int)) : getI (setI xs i v) i = v := by
  unfold getI setI
  have ht : i.toNat < xs.length := by omega
  simp [h0, List.getD, List.getElem?_set_self, ht]

/-- Reading a slot other than the one written. -/
theorem getI_setI_ne (xs : List Int) (i j v : Int) (hne : i ≠ j) :
    getI (setI xs i v) j = getI xs j := by
  unfold getI setI
  by_cases h0 : 0 ≤ i
  · by_cases h1 : 0 ≤ j
    · have ht : i.toNat ≠ j.toNat := by omega
      simp [h0, h1, List.getD, List.getElem?_set_ne ht]
    · simp [h0, h1]
  · simp [h0]

/-- Two offsets within one window of the circular index arithmetic land on
distinct slots: `(f+i) mod m ≠ (f+c) mod m` when `0 ≤ i < c` and `c - i < m`. -/
theorem emod_window_ne (f m i c : Int) (hi : 0 ≤ i) (hic : i < c)
    (hcm : c - i < m) : (f + i) % m ≠ (f + c) % m := by
  intro h
  have hd : m ∣ (f + c) - (f + i) := Int.ModEq.dvd h
  have he : (f + c) - (f + i) = c - i := by ring
  rw [he] at hd
  have := Int.le_of_dvd (by omega) hd
  omega


/-- Functional description of a successful (non-blocking) `insert_item`:
with space available it writes `item` at the slot after the tail, advances
the tail circularly, increments the count, leaves `front_idx` and the
previously live items unchanged, preserves the invariant, and returns
`true`. -/
theorem insert_item_spec_aux (b : Buffer) (item : Int) (hWF : b.WF)
    (hlt : b.current_count < b.max_size) :
    ∃ b', b.insert_item item = some (b', true) ∧ b'.WF
      ∧ b'.max_size = b.max_size
      ∧ b'.front_idx = b.front_idx
      ∧ b'.current_count = b.current_count + 1
      ∧ b'.rear_idx = (b.rear_idx + 1).tmod b.max_size
      ∧ getI b'.items b'.rear_idx = item
      ∧ b'.liveList = b.liveList ++ [item] := by
  obtain ⟨hm, hlen, hf0, hfm, hc0, hcm, hr0, hrm, hre, hrs⟩ := hWF
  have hfull : b.is_full = false := by
    simp only [Buffer.is_full, beq_eq_false_iff_ne, ne_eq]; omega
  have hr : (b.rear_idx + 1).tmod b.max_size
      = (b.front_idx + b.current_count) % b.max_size := by
    rw [Int.tmod_eq_emod (by omega) (by omega)]; exact hre
  have hrnn : 0 ≤ (b.front_idx + b.current_count) % b.max_size :=
    Int.emod_nonneg _ (by omega)
  have hrlt : (b.front_idx + b.current_count) % b.max_size < b.max_size :=
    Int.emod_lt_of_pos _ hm
  refine ⟨⟨setI b.items ((b.front_idx + b.current_count) % b.max_size) item,
      b.max_size, b.current_count + 1, b.front_idx,
      (b.front_idx + b.current_count) % b.max_size⟩,
    ?_, ?_, rfl, rfl, rfl, by rw [hr], ?_, ?_⟩
  · simp only [Buffer.insert_item, hfull, Bool.false_eq_true, if_false, hr]
  · constructor
    · exact hm
    · show ((setI b.items ((b.front_idx + b.current_count) % b.max_size)
        item).length : Int) = b.max_size
      rw [setI_length]; exact hlen
    · exact hf0
    · exact hfm
    · show (0 : Int) ≤ b.current_count + 1
      omega
    · show b.current_count + 1 ≤ b.max_size
      omega
    · show (-1 : Int) ≤ (b.front_idx + b.current_count) % b.max_size
      omega
    · exact hrlt
    · show ((b.front_idx + b.current_count) % b.max_size + 1) % b.max_size
        = (b.front_idx + (b.current_count + 1)) % b.max_size
      rw [Int.emod_add_emod]
      congr 1
      ring
    · exact Or.inr hrnn
  · exact getI_setI_eq _ _ _ hrnn (by omega)
  · simp only [Buffer.liveList]
    have hc1 : (b.current_count + 1).toNat = b.current_count.toNat + 1 := by
      omega
    rw [hc1, List.range_succ, List.map_append, List.map_singleton]
    congr 1
    · apply List.map_congr_left
      intro i hi
      have hi' : (i : Int) < b.current_count := by
        simp only [List.mem_range] at hi; omega
      exact getI_setI_ne _ _ _ _
        (Ne.symm (emod_window_ne b.front_idx b.max_size i b.current_count
          (by omega) hi' (by omega)))
    · have hcast : ((b.current_count.toNat : Int)) = b.current_count := by
        omega
      rw [hcast]
      exact congrArg (fun x => [x]) (getI_setI_eq _ _ _ hrnn (by omega))

/-- Functional description of a successful (non-blocking) `remove_item`:
with an item present it returns the item at `front_idx` (the oldest live
item), advances `front_idx` circularly, decrements the count, leaves the
array, `rear_idx` and the remaining items' relative order unchanged,
preserves the invariant, and returns `true`. -/
theorem remove_item_spec_aux (b : Buffer) (hWF : b.WF)
    (hpos : 0 < b.current_count) :
    ∃ b', b.remove_item = some (b', getI b.items b.front_idx, true) ∧ b'.WF
      ∧ b'.max_size = b.max_size
      ∧ b'.rear_idx = b.rear_idx
      ∧ b'.items = b.items
      ∧ b'.front_idx = (b.front_idx + 1).tmod b.max_size
      ∧ b'.current_count = b.current_count - 1
      ∧ b.liveList = getI b.items b.front_idx :: b'.liveList := by
  obtain ⟨hm, hlen, hf0, hfm, hc0, hcm, hr0, hrm, hre, hrs⟩ := hWF
  have hempty : b.is_empty = false := by
    simp only [Buffer.is_empty, beq_eq_false_iff_ne, ne_eq]; omega
  have hf : (b.front_idx + 1).tmod b.max_size
      = (b.front_idx + 1) % b.max_size :=
    Int.tmod_eq_emod (by omega) (by omega)
  have hfnn : 0 ≤ (b.front_idx + 1) % b.max_size :=
    Int.emod_nonneg _ (by omega)
  have hflt : (b.front_idx + 1) % b.max_size < b.max_size :=
    Int.emod_lt_of_pos _ hm
  refine ⟨⟨b.items, b.max_size, b.current_count - 1,
      (b.front_idx + 1) % b.max_size, b.rear_idx⟩,
    ?_, ?_, rfl, rfl, rfl, by rw [hf], rfl, ?_⟩
  · simp only [Buffer.remove_item, hempty, Bool.false_eq_true, if_false, hf]
  · constructor
    · exact hm
    · exact hlen
    · exact hfnn
    · exact hflt
    · show (0 : Int) ≤ b.current_count - 1
      omega
    · show b.current_count - 1 ≤ b.max_size
      omega
    · exact hr0
    · exact hrm
    · show (b.rear_idx + 1) % b.max_size
        = ((b.front_idx + 1) % b.max_size + (b.current_count - 1)) % b.max_size
      rw [Int.emod_add_emod, hre]
      congr 1
      ring
    · refine Or.inr ?_
      rcases hrs with h | h
      · omega
      · exact h
  · simp only [Buffer.liveList]
    have hc1 : b.current_count.toNat = (b.current_count - 1).toNat + 1 := by
      omega
    rw [hc1, List.range_succ_eq_map, List.map_cons, List.map_map]
    congr 1
    · show getI b.items ((b.front_idx + ((0 : Nat) : Int)) % b.max_size)
        = getI b.items b.front_idx
      rw [Nat.cast_zero, add_zero, Int.emod_eq_of_lt hf0 hfm]
    · apply List.map_congr_left
      intro i _
      show getI b.items ((b.front_idx + ((Nat.succ i : Nat) : Int)) % b.max_size)
        = getI b.items (((b.front_idx + 1) % b.max_size + (i : Int)) % b.max_size)
      rw [Int.emod_add_emod]
      apply congrArg (fun x => getI b.items x)
      apply congrArg (fun x => x % b.max_size)
      push_cast
      ring

/-- A freshly constructed buffer of positive capacity satisfies the
representation invariant. -/
theorem mkBuffer_WF (C : Int) (hC : 0 < C) : (mkBuffer C).WF := by
  constructor
  · exact hC
  · show ((List.replicate C.toNat (0 : Int)).length : Int) = C
    rw [List.length_replicate]
    omega
  · exact le_refl 0
  · exact hC
  · exact le_refl 0
  · show (0 : Int) ≤ C
    omega
  · show (-1 : Int) ≤ -1
    omega
  · show (-1 : Int) < C
    omega
  · show ((-1 : Int) + 1) % C = ((0 : Int) + 0) % C
    norm_num
  · exact Or.inl rfl

/-- A freshly constructed buffer holds no live items. -/
theorem mkBuffer_liveList (C : Int) : (mkBuffer C).liveList = [] := by
  simp [Buffer.liveList, mkBuffer]

/-- One call of the coordination layer on the buffer: a producer inserting a
value, or a consumer removing one. -/
inductive Op where
  | ins (v : Int)
  | rem
  deriving Repr, DecidableEq

/-- Sequential execution of a single-producer/single-consumer trace of calls
against the buffer.  `none` models a call that blocks (inserting into a full
buffer or removing from an empty one): with no second thread to unblock it,
the trace cannot continue.  The returned list accumulates the values handed
out by `remove_item`, in call order. -/
def runTrace (b : Buffer) : List Op → Option (Buffer × List Int)
  | [] => some (b, [])
  | Op.ins v :: rest =>
      match b.insert_item v with
      | none => none
      | some (b', _) => runTrace b' rest
  | Op.rem :: rest =>
      match b.remove_item with
      | none => none
      | some (b', x, _) =>
          match runTrace b' rest with
          | none => none
          | some (bf, xs) => some (bf, x :: xs)

/-- The values a trace inserts, in call order. -/
def insertedVals : List Op → List Int
  | [] => []
  | Op.ins v :: rest => v :: insertedVals rest
  | Op.rem :: rest => insertedVals rest

/-- Main trace invariant: running any non-blocking trace from a buffer
satisfying the representation invariant preserves the invariant and the
capacity, and the values removed so far followed by the values still live
equal the values initially live followed by the values inserted — items
leave in exactly the order they entered. -/
theorem runTrace_spec (trace : List Op) : ∀ b : Buffer, b.WF →
    ∀ bf removed, runTrace b trace = some (bf, removed) →
      bf.WF ∧ bf.max_size = b.max_size
        ∧ removed ++ bf.liveList = b.liveList ++ insertedVals trace := by
  induction trace with
  | nil =>
    intro b hWF bf removed h
    simp only [runTrace, Option.some.injEq, Prod.mk.injEq] at h
    obtain ⟨h1, h2⟩ := h
    subst h1; subst h2
    simp [insertedVals]
    exact hWF
  | cons op rest ih =>
    intro b hWF bf removed h
    cases op with
    | ins v =>
      rw [runTrace] at h
      split at h
      · exact Option.noConfusion h
      · rename_i b'' ret heq
        have hlt : b.current_count < b.max_size := by
          by_cases hfull : b.is_full = true
          · simp [Buffer.insert_item, hfull] at heq
          · have := hWF.count_ub
            simp only [Buffer.is_full, beq_iff_eq] at hfull
            omega
        obtain ⟨b', hins, hWF', hms', hfr', hcc', hre', hget', hlive'⟩ :=
          insert_item_spec_aux b v hWF hlt
        rw [hins] at heq
        simp only [Option.some.injEq, Prod.mk.injEq] at heq
        obtain ⟨h1, h2⟩ := heq
        subst h1
        obtain ⟨hWFf, hmsf, hvals⟩ := ih b' hWF' bf removed h
        refine ⟨hWFf, by rw [hmsf, hms'], ?_⟩
        rw [hvals, hlive', insertedVals]
        simp
    | rem =>
      rw [runTrace] at h
      split at h
      · exact Option.noConfusion h
      · rename_i b'' x ret heq
        have hpos : 0 < b.current_count := by
          by_cases hempty : b.is_empty = true
          · simp [Buffer.remove_item, hempty] at heq
          · have := hWF.count_lb
            simp only [Buffer.is_empty, beq_iff_eq] at hempty
            omega
        obtain ⟨b', hrem, hWF', hms', hre', hit', hfr', hcc', hlive'⟩ :=
          remove_item_spec_aux b hWF hpos
        rw [hrem] at heq
        simp only [Option.some.injEq, Prod.mk.injEq] at heq
        obtain ⟨h1, h2, h3⟩ := heq
        subst h1
        split at h
        · exact Option.noConfusion h
        · rename_i bf' xs hrun
          simp only [Option.some.injEq, Prod.mk.injEq] at h
          obtain ⟨h4, h5⟩ := h
          subst h4
          obtain ⟨hWFf, hmsf, hvals⟩ := ih b' hWF' bf' xs hrun
          refine ⟨hWFf, by rw [hmsf, hms'], ?_⟩
          rw [← h5, insertedVals, hlive']
          subst h2
          simp [hvals]

/-- The insert phase of the round-trip test: one producer inserting
`[1, 2, 3, 4, 5]`. -/
def insTrace : List Op := [Op.ins 1, Op.ins 2, Op.ins 3, Op.ins 4, Op.ins 5]

/-- The round-trip test: on a fresh buffer of capacity 5, the five inserts
of `insTrace` followed by `k` `remove_item` calls. -/
def roundTrip (k : Nat) : Option (Buffer × List Int) :=
  runTrace (mkBuffer 5) (insTrace ++ List.replicate k Op.rem)

/-- C1: FIFO round-trip.  Generally, every single-producer/single-consumer
trace from a fresh buffer removes exactly the inserted values in insertion
order (the removed sequence followed by the still-live items equals the
inserted sequence; once the buffer is empty the two sequences coincide).
Concretely, capacity 5 with inserts `[1,2,3,4,5]` then 5 removes yields
`[1,2,3,4,5]`, `is_empty` is true afterward, and `is_full` is false after
each of the removals. -/
theorem fifo_roundtrip :
    (∀ (C : Int) (trace : List Op) (bf : Buffer) (removed : List Int),
        0 < C → runTrace (mkBuffer C) trace = some (bf, removed) →
          removed ++ bf.liveList = insertedVals trace
          ∧ (bf.is_empty = true → removed = insertedVals trace))
    ∧ (roundTrip 5 = some (⟨[1, 2, 3, 4, 5], 5, 0, 0, 4⟩, [1, 2, 3, 4, 5])
        ∧ Buffer.is_empty ⟨[1, 2, 3, 4, 5], 5, 0, 0, 4⟩ = true)
    ∧ (([1, 2, 3, 4, 5] : List Nat).all (fun k =>
        match roundTrip k with
        | some (p, _) => !p.is_full
        | none => false) = true) := by
  refine ⟨?_, by decide, by decide⟩
  intro C trace bf removed hC hrun
  obtain ⟨hWFf, _, hvals⟩ :=
    runTrace_spec trace (mkBuffer C) (mkBuffer_WF C hC) bf removed hrun
  rw [mkBuffer_liveList, List.nil_append] at hvals
  refine ⟨hvals, ?_⟩
  intro hemp
  have hc0 : bf.current_count = 0 := by
    simpa [Buffer.is_empty] using hemp
  have hlnil : bf.liveList = [] := by
    simp [Buffer.liveList, hc0]
  rw [hlnil, List.append_nil] at hvals
  exact hvals

/-- C2: representation invariant.  After any non-blocking sequence of
`insert_item`/`remove_item` calls on a fresh buffer of positive capacity
`C`, the count stays within `[0, C]` and, whenever the buffer is nonempty,
`rear_idx = (front_idx + current_count - 1) % C` (C++ truncated `%`). -/
theorem count_invariant (C : Int) (trace : List Op) (bf : Buffer)
    (removed : List Int) (hC : 0 < C)
    (hrun : runTrace (mkBuffer C) trace = some (bf, removed)) :
    0 ≤ bf.current_count ∧ bf.current_count ≤ C
      ∧ (0 < bf.current_count →
          bf.rear_idx = (bf.front_idx + bf.current_count - 1).tmod C) := by
  obtain ⟨hWFf, hms, _⟩ :=
    runTrace_spec trace (mkBuffer C) (mkBuffer_WF C hC) bf removed hrun
  have hms5 : bf.max_size = C := by simpa [mkBuffer] using hms
  obtain ⟨hm, hlen, hf0, hfm, hc0, hcm, hr0, hrm, hre, hrs⟩ := hWFf
  rw [hms5] at hm hfm hcm hrm hre
  refine ⟨hc0, hcm, ?_⟩
  intro hcpos
  have hrpos : 0 ≤ bf.rear_idx := by
    rcases hrs with hz | hp
    · omega
    · exact hp
  have h2 : Int.ModEq C (bf.rear_idx + 1)
      (bf.front_idx + bf.current_count) := hre
  have h3 := Int.ModEq.sub_right 1 h2
  have hmeq : bf.rear_idx % C
      = (bf.front_idx + bf.current_count - 1) % C := by
    have h4 : bf.rear_idx + 1 - 1 = bf.rear_idx := by ring
    rw [h4] at h3
    exact h3
  rw [Int.tmod_eq_emod (by omega) (by omega), ← hmeq,
    Int.emod_eq_of_lt hrpos hrm]

/-- Concrete instance of C2: capacity 5, inserts of 1 and 2 and one remove
reach count 1 within bounds, with `rear_idx = (front_idx + count - 1) % 5`. -/
theorem count_invariant_witness :
    0 ≤ (⟨[1, 2, 0, 0, 0], 5, 1, 1, 1⟩ : Buffer).current_count
      ∧ (⟨[1, 2, 0, 0, 0], 5, 1, 1, 1⟩ : Buffer).current_count ≤ 5
      ∧ (0 < (⟨[1, 2, 0, 0, 0], 5, 1, 1, 1⟩ : Buffer).current_count →
          (⟨[1, 2, 0, 0, 0], 5, 1, 1, 1⟩ : Buffer).rear_idx
            = ((⟨[1, 2, 0, 0, 0], 5, 1, 1, 1⟩ : Buffer).front_idx
                + (⟨[1, 2, 0, 0, 0], 5, 1, 1, 1⟩ : Buffer).current_count
                - 1).tmod 5) :=
  count_invariant 5 [Op.ins 1, Op.ins 2, Op.rem]
    ⟨[1, 2, 0, 0, 0], 5, 1, 1, 1⟩ [1] (by decide) (by decide)

/-- C3: `insert_item` postcondition in the non-blocking case: the item is
written at the slot after the current tail, the tail advances circularly,
the count grows by one, the head and the previously live items are
unchanged, and the call returns `true`. -/
theorem insert_item_postcondition (b : Buffer) (item : Int) (hWF : b.WF)
    (hlt : b.current_count < b.max_size) :
    ∃ b', b.insert_item item = some (b', true)
      ∧ getI b'.items b'.rear_idx = item
      ∧ b'.rear_idx = (b.rear_idx + 1).tmod b.max_size
      ∧ b'.current_count = b.current_count + 1
      ∧ b'.front_idx = b.front_idx
      ∧ b'.liveList = b.liveList ++ [item] := by
  obtain ⟨b', h1, _, _, h4, h5, h6, h7, h8⟩ :=
    insert_item_spec_aux b item hWF hlt
  exact ⟨b', h1, h7, h6, h5, h4, h8⟩

/-- Concrete instance of C3: inserting 7 into a capacity-5 buffer holding
`[1, 2]` at the front. -/
theorem insert_item_postcondition_witness :
    ∃ b', Buffer.insert_item ⟨[1, 2, 0, 0, 0], 5, 2, 0, 1⟩ 7 = some (b', true)
      ∧ getI b'.items b'.rear_idx = 7
      ∧ b'.rear_idx = ((1 : Int) + 1).tmod 5
      ∧ b'.current_count = 2 + 1
      ∧ b'.front_idx = 0
      ∧ b'.liveList = Buffer.liveList ⟨[1, 2, 0, 0, 0], 5, 2, 0, 1⟩ ++ [7] :=
  insert_item_postcondition ⟨[1, 2, 0, 0, 0], 5, 2, 0, 1⟩ 7
    (by constructor <;> decide) (by decide)

/-- C4: `remove_item` postcondition in the non-blocking case: the item at
the head (the oldest live item) is handed out, the head advances
circularly, the count shrinks by one, the remaining items keep their
relative order, and the call returns `true`. -/
theorem remove_item_postcondition (b : Buffer) (hWF : b.WF)
    (hpos : 0 < b.current_count) :
    ∃ b', b.remove_item = some (b', getI b.items b.front_idx, true)
      ∧ b'.front_idx = (b.front_idx + 1).tmod b.max_size
      ∧ b'.current_count = b.current_count - 1
      ∧ b.liveList = getI b.items b.front_idx :: b'.liveList := by
  obtain ⟨b', h1, _, _, _, _, h6, h7, h8⟩ := remove_item_spec_aux b hWF hpos
  exact ⟨b', h1, h6, h7, h8⟩

/-- Concrete instance of C4: removing from a capacity-5 buffer holding
`[1, 2]` at the front hands out 1, the oldest item. -/
theorem remove_item_postcondition_witness :
    ∃ b', Buffer.remove_item ⟨[1, 2, 0, 0, 0], 5, 2, 0, 1⟩
        = some (b', getI [1, 2, 0, 0, 0] 0, true)
      ∧ b'.front_idx = ((0 : Int) + 1).tmod 5
      ∧ b'.current_count = 2 - 1
      ∧ Buffer.liveList ⟨[1, 2, 0, 0, 0], 5, 2, 0, 1⟩
          = getI [1, 2, 0, 0, 0] 0 :: b'.liveList :=
  remove_item_postcondition ⟨[1, 2, 0, 0, 0], 5, 2, 0, 1⟩
    (by constructor <;> decide) (by decide)

/-- A reachable buffer whose `front_idx` is nonzero: starting from a fresh
capacity-5 buffer, insert 99, 10, 20 and remove once.  Its live contents
are `[10, 20]`, stored at indices 1 and 2. -/
def bugSrc : Buffer := ⟨[99, 10, 20, 0, 0], 5, 2, 1, 2⟩

/-- C5 divergence, evaluated.  The copy constructor moves the live items to
indices `0, 1, …` of the new array but copies `front_idx`/`rear_idx`
verbatim from the source, so for a source with `front_idx = 1` the copy's
indices still point at the old positions: the copy's logical contents
become `[20, 0]` instead of `[10, 20]`, and removing from the copy yields
20 where removing from the source yields 10. -/
theorem copy_reindex_divergence :
    runTrace (mkBuffer 5) [Op.ins 99, Op.ins 10, Op.ins 20, Op.rem]
        = some (bugSrc, [99])
    ∧ bugSrc.liveList = [10, 20]
    ∧ bugSrc.copy.front_idx = bugSrc.front_idx
    ∧ bugSrc.copy.rear_idx = bugSrc.rear_idx
    ∧ bugSrc.copy.items = [10, 20, 0, 0, 0]
    ∧ bugSrc.copy.liveList = [20, 0]
    ∧ bugSrc.remove_item = some (⟨[99, 10, 20, 0, 0], 5, 1, 2, 2⟩, 10, true)
    ∧ bugSrc.copy.remove_item
        = some (⟨[10, 20, 0, 0, 0], 5, 1, 2, 2⟩, 20, true)
    ∧ Buffer.opAssign ⟨[0, 0, 0, 0, 0], 5, 0, 0, -1⟩ bugSrc false
        = bugSrc.copy := by
  refine ⟨by decide, by decide, by decide, by decide, by decide, by decide,
    by decide, by decide, by decide⟩

/-- C6: the constructor performs no validation of its size argument.
`Buffer(0)` completes normally and yields a buffer with `max_size = 0`
(neither rejected nor clamped) on which `is_full()` already holds and
`insert_item` blocks forever; a negative size is only stopped by the
`new buffer_item[max_size]` allocation throwing. -/
theorem construct_unchecked :
    Buffer.construct 0 = some (mkBuffer 0)
    ∧ (mkBuffer 0).max_size = 0
    ∧ (mkBuffer 0).current_count = 0
    ∧ (mkBuffer 0).is_full = true
    ∧ (mkBuffer 0).insert_item 7 = none
    ∧ Buffer.construct (-3) = none := by
  refine ⟨by decide, by decide, by decide, by decide, by decide, by decide⟩

/-- C10: self-assignment is the identity.  `operator=` tests
`this == &other` (modelled by the `same` flag being `true` with both
operands the same buffer) and returns `*this` with no member or item
changed. -/
theorem self_assignment_identity (b : Buffer) :
    Buffer.opAssign b b true = b := rfl

/-- A heap of allocated `buffer_item` arrays, addressed by allocation id.
`Buffer::items` is a raw pointer; the copy constructor's
`new buffer_item[max_size]` makes copies point at distinct allocations. -/
structure Heap where
  arrays : List (List Int)
  deriving Repr, DecidableEq

/-- A `Buffer` object whose `items` member is a pointer (allocation id)
into a `Heap`, with the remaining members as in `Buffer`. -/
structure HBuffer where
  arr : Nat
  max_size : Int
  current_count : Int
  front_idx : Int
  rear_idx : Int
  deriving Repr, DecidableEq

/-- The value state a heap buffer denotes: dereference its array pointer. -/
def HBuffer.toBuffer (b : HBuffer) (h : Heap) : Buffer :=
  { items := h.arrays.getD b.arr []
    max_size := b.max_size
    current_count := b.current_count
    front_idx := b.front_idx
    rear_idx := b.rear_idx }

/-- `Buffer::insert_item` on a heap buffer: run the value-level
`insert_item` and write the updated array back through the buffer's own
pointer — the only array the member function can reach is `this->items`. -/
def hInsert (h : Heap) (b : HBuffer) (item : Int) :
    Option (Heap × HBuffer × Bool) :=
  match (b.toBuffer h).insert_item item with
  | none => none
  | some (b', ret) =>
      some ({ arrays := h.arrays.set b.arr b'.items },
            { b with rear_idx := b'.rear_idx
                     current_count := b'.current_count }, ret)

/-- The copy constructor on the heap: `new buffer_item[max_size]` yields a
fresh allocation (the next free id), which the copy loop fills; the
source's allocation is only read. -/
def hCopy (h : Heap) (other : HBuffer) : Heap × HBuffer :=
  let copied := Buffer.copy (other.toBuffer h)
  ({ arrays := h.arrays ++ [copied.items] },
   { arr := h.arrays.length
     max_size := copied.max_size
     current_count := copied.current_count
     front_idx := copied.front_idx
     rear_idx := copied.rear_idx })

/-- C7: copy independence.  The copy points at a fresh allocation, making
the copy leaves the source's state (dereferenced through its own pointer)
untouched, and inserting into the copy afterwards still leaves the
source's count and logical contents exactly as they were. -/
theorem copy_independence (h : Heap) (b : HBuffer) (item : Int)
    (hb : b.arr < h.arrays.length) :
    (hCopy h b).2.arr ≠ b.arr
    ∧ b.toBuffer (hCopy h b).1 = b.toBuffer h
    ∧ (∀ h₂ c' r, hInsert (hCopy h b).1 (hCopy h b).2 item = some (h₂, c', r) →
        b.toBuffer h₂ = b.toBuffer h
        ∧ (b.toBuffer h₂).get_count = (b.toBuffer h).get_count
        ∧ (b.toBuffer h₂).liveList = (b.toBuffer h).liveList) := by
  have harr : (hCopy h b).2.arr = h.arrays.length := rfl
  have hget : ((hCopy h b).1.arrays)[b.arr]? = (h.arrays)[b.arr]? := by
    show ((h.arrays ++ [(Buffer.copy (b.toBuffer h)).items]))[b.arr]?
      = (h.arrays)[b.arr]?
    rw [List.getElem?_append]
    simp [hb]
  have htb : b.toBuffer (hCopy h b).1 = b.toBuffer h := by
    simp only [HBuffer.toBuffer, List.getD_eq_getElem?_getD, hget]
  refine ⟨by rw [harr]; omega, htb, ?_⟩
  intro h₂ c' r heq
  rw [hInsert] at heq
  split at heq
  · exact Option.noConfusion heq
  · rename_i b' ret hmatch
    simp only [Option.some.injEq, Prod.mk.injEq] at heq
    obtain ⟨h1, _, _⟩ := heq
    have htb2 : b.toBuffer h₂ = b.toBuffer h := by
      rw [← h1]
      simp only [HBuffer.toBuffer, List.getD_eq_getElem?_getD]
      rw [List.getElem?_set_ne (by rw [harr]; omega), hget]
    exact ⟨htb2, by rw [htb2], by rw [htb2]⟩

/-- Concrete instance of C7: a capacity-5 buffer holding `[10, 20]` is
copied and 30 is inserted into the copy; the original's contents and count
are untouched. -/
theorem copy_independence_witness :
    (hCopy ⟨[[10, 20, 0, 0, 0]]⟩ ⟨0, 5, 2, 0, 1⟩).2.arr
        ≠ (⟨0, 5, 2, 0, 1⟩ : HBuffer).arr
    ∧ HBuffer.toBuffer ⟨0, 5, 2, 0, 1⟩ (hCopy ⟨[[10, 20, 0, 0, 0]]⟩ ⟨0, 5, 2, 0, 1⟩).1
        = HBuffer.toBuffer ⟨0, 5, 2, 0, 1⟩ ⟨[[10, 20, 0, 0, 0]]⟩
    ∧ (∀ h₂ c' r, hInsert (hCopy ⟨[[10, 20, 0, 0, 0]]⟩ ⟨0, 5, 2, 0, 1⟩).1
          (hCopy ⟨[[10, 20, 0, 0, 0]]⟩ ⟨0, 5, 2, 0, 1⟩).2 30 = some (h₂, c', r) →
        HBuffer.toBuffer ⟨0, 5, 2, 0, 1⟩ h₂
            = HBuffer.toBuffer ⟨0, 5, 2, 0, 1⟩ ⟨[[10, 20, 0, 0, 0]]⟩
        ∧ (HBuffer.toBuffer ⟨0, 5, 2, 0, 1⟩ h₂).get_count
            = (HBuffer.toBuffer ⟨0, 5, 2, 0, 1⟩ ⟨[[10, 20, 0, 0, 0]]⟩).get_count
        ∧ (HBuffer.toBuffer ⟨0, 5, 2, 0, 1⟩ h₂).liveList
            = (HBuffer.toBuffer ⟨0, 5, 2, 0, 1⟩ ⟨[[10, 20, 0, 0, 0]]⟩).liveList) :=
  copy_independence ⟨[[10, 20, 0, 0, 0]]⟩ ⟨0, 5, 2, 0, 1⟩ 30 (by decide)

/-- The window of `n` array slots read circularly starting at `index`,
exactly as the source's copy/print loops traverse them. -/
def fifoWindow (items : List Int) (msize : Int) : Nat → Int → List Int
  | 0, _ => []
  | n + 1, index =>
      getI items index :: fifoWindow items msize n ((index + 1).tmod msize)

/-- Rendering of a list of items as a comma-separated sequence, as
`print_buffer` emits between its brackets. -/
def commaJoin : List Int → String
  | [] => ""
  | [x] => toString x
  | x :: y :: rest => toString x ++ ", " ++ commaJoin (y :: rest)

/-- Joining a nonempty tail: the comma separator appears after the head. -/
theorem commaJoin_cons (x : Int) (l : List Int) (hl : l ≠ []) :
    commaJoin (x :: l) = toString x ++ ", " ++ commaJoin l := by
  cases l with
  | nil => exact absurd rfl hl
  | cons y rest => rfl

/-- The circular window starting at a valid index coincides with the
offset-based description used by `liveList`. -/
theorem fifoWindow_eq_map (items : List Int) (msize : Int)
    (hm : 0 < msize) :
    ∀ (n : Nat) (index : Int), 0 ≤ index → index < msize →
      fifoWindow items msize n index
        = (List.range n).map
            (fun (i : Nat) => getI items ((index + (i : Int)) % msize)) := by
  intro n
  induction n with
  | zero => intro index h0 h1; simp [fifoWindow]
  | succ m ih =>
    intro index h0 h1
    have hidx : (index + 1).tmod msize = (index + 1) % msize :=
      Int.tmod_eq_emod (by omega) (by omega)
    rw [fifoWindow, List.range_succ_eq_map, List.map_cons, List.map_map]
    congr 1
    · show getI items index
        = getI items ((index + ((0 : Nat) : Int)) % msize)
      rw [Nat.cast_zero, add_zero, Int.emod_eq_of_lt h0 h1]
    · rw [hidx, ih ((index + 1) % msize) (Int.emod_nonneg _ (by omega))
        (Int.emod_lt_of_pos _ hm)]
      apply List.map_congr_left
      intro i _
      show getI items (((index + 1) % msize + (i : Int)) % msize)
        = getI items ((index + ((Nat.succ i : Nat) : Int)) % msize)
      rw [Int.emod_add_emod]
      apply congrArg (fun x => getI items x)
      apply congrArg (fun x => x % msize)
      push_cast
      ring

/-- The printing loop emits exactly the comma-joined rendering of the
window it traverses (the loop's comma test `i < current_count - 1` holds
exactly until the last item). -/
theorem printItemsAux_eq_commaJoin (items : List Int) (msize cnt : Int) :
    ∀ (fuel : Nat) (i : Nat) (index : Int), (i : Int) + fuel = cnt →
      printItemsAux items msize cnt fuel i index
        = commaJoin (fifoWindow items msize fuel index) := by
  intro fuel
  induction fuel with
  | zero => intro i index h; simp [printItemsAux, fifoWindow, commaJoin]
  | succ n ih =>
    intro i index h
    cases n with
    | zero =>
      have hno : ¬((i : Int) < cnt - 1) := by push_cast at h; omega
      simp [printItemsAux, fifoWindow, commaJoin, hno]
    | succ m =>
      have hyes : (i : Int) < cnt - 1 := by push_cast at h ⊢; omega
      have hrec := ih (i + 1) ((index + 1).tmod msize)
        (by push_cast at h ⊢; omega)
      have hw : fifoWindow items msize (m + 1 + 1) index
          = getI items index
            :: fifoWindow items msize (m + 1) ((index + 1).tmod msize) := rfl
      have hne : fifoWindow items msize (m + 1) ((index + 1).tmod msize)
          ≠ [] := by
        rw [fifoWindow]
        exact List.cons_ne_nil _ _
      rw [printItemsAux, if_pos hyes, hrec, hw, commaJoin_cons _ _ hne,
        String.append_assoc]

/-- C8: `print_buffer` renders the empty marker when the buffer is empty,
and otherwise the live items oldest-first as a comma-separated list inside
the brackets. -/
theorem print_buffer_spec (b : Buffer) (hWF : b.WF) :
    (b.current_count = 0 →
        b.print_buffer = "Buffer: [-- Buffer is empty --]\n")
    ∧ (0 < b.current_count →
        b.print_buffer = "Buffer: [" ++ commaJoin b.liveList ++ "]\n") := by
  obtain ⟨hm, hlen, hf0, hfm, hc0, hcm, hr0, hrm, hre, hrs⟩ := hWF
  constructor
  · intro hc
    have hemp : b.is_empty = true := by simp [Buffer.is_empty, hc]
    simp [Buffer.print_buffer, hemp]
  · intro hc
    have hemp : b.is_empty = false := by
      simp only [Buffer.is_empty, beq_eq_false_iff_ne, ne_eq]; omega
    have h1 := printItemsAux_eq_commaJoin b.items b.max_size b.current_count
      b.current_count.toNat 0 b.front_idx (by push_cast; omega)
    have h2 := fifoWindow_eq_map b.items b.max_size hm
      b.current_count.toNat b.front_idx hf0 hfm
    simp only [Buffer.print_buffer, hemp, Bool.false_eq_true, if_false]
    rw [h1, h2, Buffer.liveList]

/-- Concrete instance of C8: a capacity-5 buffer holding `[1, 2]` prints
its items comma-separated, oldest first. -/
theorem print_buffer_spec_witness :
    ((⟨[1, 2, 0, 0, 0], 5, 2, 0, 1⟩ : Buffer).current_count = 0 →
        Buffer.print_buffer ⟨[1, 2, 0, 0, 0], 5, 2, 0, 1⟩
          = "Buffer: [-- Buffer is empty --]\n")
    ∧ (0 < (⟨[1, 2, 0, 0, 0], 5, 2, 0, 1⟩ : Buffer).current_count →
        Buffer.print_buffer ⟨[1, 2, 0, 0, 0], 5, 2, 0, 1⟩
          = "Buffer: ["
              ++ commaJoin (Buffer.liveList ⟨[1, 2, 0, 0, 0], 5, 2, 0, 1⟩)
              ++ "]\n") :=
  print_buffer_spec ⟨[1, 2, 0, 0, 0], 5, 2, 0, 1⟩ (by constructor <;> decide)

/-- The global `Buffer buffer(5);` of main.cpp line 19. -/
def mainBuffer : Buffer := mkBuffer 5

/-- One step of the startup sequence of `main` (main.cpp lines 113-130). -/
inductive StartupStep where
  | semInitEmpty (v : Int)
  | semInitFull (v : Int)
  | mutexInit
  | spawnProducer (i : Nat)
  | spawnConsumer (j : Nat)
  deriving Repr, DecidableEq

/-- The startup sequence of `main` (main.cpp lines 113-130) in program
order: `sem_init(&empty_slots, 0, buffer.get_size())`,
`sem_init(&full_slots, 0, 0)`, `pthread_mutex_init`, then the
producer-creation loop and the consumer-creation loop. -/
def mainStartup (np nc : Nat) : List StartupStep :=
  [StartupStep.semInitEmpty mainBuffer.get_size,
   StartupStep.semInitFull 0,
   StartupStep.mutexInit]
  ++ (List.range np).map StartupStep.spawnProducer
  ++ (List.range nc).map StartupStep.spawnConsumer

/-- C9: at startup the empty-slot semaphore is initialised to exactly
`buffer.get_size()` — the capacity, 5, of the global buffer — and the
full-slot semaphore to exactly 0, and both initialisations occur strictly
before every producer- and consumer-thread creation, for any thread
counts. -/
theorem semaphore_init (np nc : Nat) :
    (mainStartup np nc)[0]?
        = some (StartupStep.semInitEmpty mainBuffer.get_size)
    ∧ mainBuffer.get_size = 5
    ∧ (mainStartup np nc)[1]? = some (StartupStep.semInitFull 0)
    ∧ (∀ k i, (mainStartup np nc)[k]? = some (StartupStep.spawnProducer i) →
        1 < k)
    ∧ (∀ k j, (mainStartup np nc)[k]? = some (StartupStep.spawnConsumer j) →
        1 < k) := by
  refine ⟨rfl, rfl, rfl, ?_, ?_⟩
  · intro k i hk
    by_contra hlt
    push_neg at hlt
    interval_cases k <;> simp [mainStartup] at hk
  · intro k j hk
    by_contra hlt
    push_neg at hlt
    interval_cases k <;> simp [mainStartup] at hk
